import Mathlib

/-!
Shallow embedding of the local-alignment engine in `src/src/Aligner.ts`
(class `Aligner`, method `analize`).  The JavaScript numbers involved are
small integers (scores bounded by the sequence lengths, indices bounded by
the grid size), all represented exactly by the `Float32Array` used in the
source, so they are modelled as `Int` / `Nat`.  The `matches/result.length`
quotient is modelled as a rational.  The statistics block dereferences
`result[0]` and `result.at(-1)!` unconditionally; on an empty record list
this throws a `TypeError` in JavaScript, modelled here by `Option` with
`none` on the empty list.
-/

namespace Aligner

/-- Model of `enum Result` from Aligner.ts. -/
inductive Result where
  | NO_MATCH
  | B_NOMATCH
  | A_NOMATCH
  | GOOD_MATCH
deriving DecidableEq, Repr

/-- Model of `type ResidueResult` from Aligner.ts (`iA`, `iB` are JS numbers,
possibly computed as `x-1` with `x = 0`, hence `Int`). -/
structure ResidueResult where
  iA : Int
  iB : Int
  res : Result
deriving DecidableEq, Repr

instance : Inhabited ResidueResult := ⟨⟨0, 0, Result.NO_MATCH⟩⟩

/-- Model of `type Sequence` from Aligner.ts; the residue string is a list of
characters. -/
structure Sequence where
  name : String
  sequence : List Char
deriving DecidableEq, Repr

/-- Model of `type SequenceStats` from Aligner.ts. -/
structure SequenceStats where
  name : String
  length : Nat
  start : Int
  «end» : Int
deriving DecidableEq, Repr

/-- Model of `type AlignmentStats` from Aligner.ts; `alignmentMatchPercent` is the
exact rational value of `matches / result.length`. -/
structure AlignmentStats where
  permutations : Nat
  alignmentLength : Nat
  alignmentMatchPercent : Rat
  sequence1 : SequenceStats
  sequence2 : SequenceStats
deriving DecidableEq, Repr

/-- JavaScript string indexing `s[i]`: a character for `0 ≤ i < s.length`,
`undefined` (here `none`) outside that range.  JS `==`/`!=` on the results
agrees with decidable equality on `Option Char`. -/
def charAt (s : List Char) (i : Int) : Option Char :=
  if i < 0 then none else s.get? i.toNat

def matchReward : Int := 1

def mismatchPenalty : Int := -matchReward

def gapPenalty : Int := 1

/-- The state built by the matrix-filling loop of `analize`: the two
channels of the `permutations` buffer (score and next index, both total
functions defaulting to the buffer's initial zeros) plus the running
maximum tracking. -/
structure BuildState where
  score : Nat → Int
  next : Nat → Nat
  maxScore : Int
  maxIndex : Nat

/-- Pointwise array write. -/
def upd {α : Type} (f : Nat → α) (i : Nat) (v : α) : Nat → α :=
  fun j => if j = i then v else f j

/-- One iteration of the matrix-filling `for` loop of `analize` at linear
index `i` (`W = sequence1.length + 1`). -/
def buildStep (A B : List Char) (W : Nat) (s : BuildState) (i : Nat) : BuildState :=
  let x := i % W
  let y := i / W
  if y = 0 ∨ x = 0 then
    s
  else
    let permScore : Int := if A.get? (x - 1) = B.get? (y - 1) then matchReward else mismatchPenalty
    let iD := (x - 1) + (y - 1) * W
    let iL := (x - 1) + y * W
    let iT := x + (y - 1) * W
    let myScore := s.score iD + permScore
    let lScore := s.score iL - gapPenalty
    let tScore := s.score iT - gapPenalty
    let score := max (max (max myScore lScore) tScore) 0
    let nextIndex := if myScore = score then iD
      else if score = lScore then iL
      else if score = tScore then iT
      else 0
    let maxScore := if score > s.maxScore then score else s.maxScore
    let maxIndex := if score > s.maxScore then i else s.maxIndex
    { score := upd s.score i score
      next := upd s.next i nextIndex
      maxScore := maxScore
      maxIndex := maxIndex }

def buildInit : BuildState :=
  { score := fun _ => 0, next := fun _ => 0, maxScore := 0, maxIndex := 0 }

/-- The matrix-filling loop run over the first `k` linear indices. -/
def buildUpTo (A B : List Char) (k : Nat) : BuildState :=
  (List.range k).foldl (buildStep A B (A.length + 1)) buildInit

/-- The completed matrix-filling loop of `analize`. -/
def build (A B : List Char) : BuildState :=
  buildUpTo A B ((A.length + 1) * (B.length + 1))

/-- The mutable state of the traceback `while` loop of `analize`:
the `result` array (in push order, i.e. tail→head), the previous step's
residue indices `iA`/`iB`, and the `gaps`/`matches` counters. -/
structure TBState where
  result : List ResidueResult
  iA : Int
  iB : Int
  gaps : Nat
  «matches» : Nat
deriving Repr

/-- The body of one iteration of the traceback `while` loop of `analize`
at grid index `next`: decode the coordinates, classify the residue pair
against the previous step's indices held in `st`, push the record and
update the counters. -/
def tbStep (A B : List Char) (W : Nat) (next : Nat) (st : TBState) : TBState :=
  let x := next % W
  let y := next / W
  let _iA : Int := (x : Int) - 1
  let _iB : Int := (y : Int) - 1
  let a := charAt A _iA
  let b := charAt B _iB
  let res := if a = b then Result.GOOD_MATCH
    else if st.iA = _iA then Result.B_NOMATCH
    else if st.iB = _iB then Result.A_NOMATCH
    else Result.NO_MATCH
  let gaps := if a = b then st.gaps
    else if st.iA = _iA then st.gaps + 1
    else if st.iB = _iB then st.gaps + 1
    else st.gaps
  let m := if a = b then st.«matches» + 1 else st.«matches»
  { result := st.result ++ [⟨_iA, _iB, res⟩]
    iA := _iA
    iB := _iB
    gaps := gaps
    «matches» := m }

/-- The traceback `while` loop of `analize`: break when the current index
is `0` or its score is `≤ 0`, otherwise run the body and move to the
stored next index.  The source loop terminates because each stored next
index is strictly smaller than the current one; this is made structural
with a fuel argument, and every run below uses fuel strictly larger than
the start index, which is proved sufficient. -/
def traceback (A B : List Char) (W : Nat) (score : Nat → Int) (nxt : Nat → Nat) :
    Nat → Nat → TBState → TBState
  | 0, _, st => st
  | fuel + 1, next, st =>
    if next = 0 ∨ score next ≤ 0 then st
    else traceback A B W score nxt fuel (nxt next) (tbStep A B W next st)

/-- The full traceback pass of `analize` on the completed matrix, started
at the maximal cell with the initial state of the source
(`result = []`, `iA = 0`, `iB = 0`, `gaps = 0`, `matches = 0`). -/
def tracebackRun (A B : List Char) : TBState :=
  let bs := build A B
  traceback A B (A.length + 1) bs.score bs.next
    ((A.length + 1) * (B.length + 1)) bs.maxIndex
    { result := [], iA := 0, iB := 0, gaps := 0, «matches» := 0 }

/-- What one invocation of `analize` produces: the reversed (head→tail)
alignment it returns, and the `_stats` field it assigns.  The statistics
block evaluates `result[0].iA` and `result.at(-1)!.iA` before the reversal;
on an empty `result` this throws in JavaScript, modelled by `none`. -/
structure AnalysisResult where
  alignment : List ResidueResult
  stats : Option AlignmentStats
deriving Repr

/-- Model of `Aligner.analize` (with the two parsed sequences of the instance). -/
def analize (s1 s2 : Sequence) : AnalysisResult :=
  let A := s1.sequence
  let B := s2.sequence
  let permutationsTotal := (A.length + 1) * (B.length + 1)
  let tb := tracebackRun A B
  let stats : Option AlignmentStats :=
    match tb.result with
    | [] => none
    | r0 :: rest =>
      some
        { alignmentLength := tb.result.length
          alignmentMatchPercent := (tb.«matches» : Rat) / (tb.result.length : Rat)
          permutations := permutationsTotal
          sequence1 :=
            { name := s1.name
              length := A.length
              «end» := r0.iA
              start := ((r0 :: rest).getLastD r0).iA }
          sequence2 :=
            { name := s2.name
              length := B.length
              «end» := r0.iB
              start := ((r0 :: rest).getLastD r0).iB } }
  { alignment := tb.result.reverse, stats := stats }

/-- Declarative form of the scoring recurrence: the value the filling loop
stores at interior cell `(x, y)` expressed by structural recursion
(boundary row and column are `0`). -/
def cellScore (A B : List Char) : Nat → Nat → Int
  | 0, _ => 0
  | _ + 1, 0 => 0
  | x + 1, y + 1 =>
    let ps : Int := if A.get? x = B.get? y then matchReward else mismatchPenalty
    max (max (max (cellScore A B x y + ps) (cellScore A B x (y + 1) - gapPenalty))
      (cellScore A B (x + 1) y - gapPenalty)) 0
termination_by x y => x + y
decreasing_by all_goals omega

/-- Declarative form of the predecessor selection of the filling loop at
cell `(x, y)`: diagonal first, then left, then top, else `0`. -/
def cellNext (A B : List Char) (W x y : Nat) : Nat :=
  if x = 0 ∨ y = 0 then 0
  else
    let ps : Int := if A.get? (x - 1) = B.get? (y - 1) then matchReward else mismatchPenalty
    let iD := (x - 1) + (y - 1) * W
    let iL := (x - 1) + y * W
    let iT := x + (y - 1) * W
    let myScore := cellScore A B (x - 1) (y - 1) + ps
    let lScore := cellScore A B (x - 1) y - gapPenalty
    let tScore := cellScore A B x (y - 1) - gapPenalty
    let score := cellScore A B x y
    if myScore = score then iD
    else if score = lScore then iL
    else if score = tScore then iT
    else 0

/-- Bounds every emitted traceback record satisfies: residue indices are
inside the two sequences. -/
def RecBounds (A B : List Char) (r : ResidueResult) : Prop :=
  0 ≤ r.iA ∧ r.iA < A.length ∧ 0 ≤ r.iB ∧ r.iB < B.length

/-- Relation between two consecutively pushed traceback records (`r`
pushed first, `r\'` pushed immediately after, i.e. `r\'` is one step closer
to the head of the alignment): the step moves diagonally, left or up, and
`r\'` is classified by the source rule against `r`. -/
def StepRel (A B : List Char) (r r' : ResidueResult) : Prop :=
  ((r'.iA = r.iA - 1 ∧ r'.iB = r.iB - 1) ∨
   (r'.iA = r.iA - 1 ∧ r'.iB = r.iB) ∨
   (r'.iA = r.iA ∧ r'.iB = r.iB - 1)) ∧
  (charAt A r'.iA = charAt B r'.iB → r'.res = Result.GOOD_MATCH) ∧
  (charAt A r'.iA ≠ charAt B r'.iB →
    r'.res = if r.iA = r'.iA then Result.B_NOMATCH
      else if r.iB = r'.iB then Result.A_NOMATCH
      else Result.NO_MATCH)

/-- Number of gap records (`A_NOMATCH` or `B_NOMATCH`) in a record list. -/
def gapCount (l : List ResidueResult) : Nat :=
  (l.filter (fun r => r.res == Result.A_NOMATCH || r.res == Result.B_NOMATCH)).length

/-- Number of `GOOD_MATCH` records in a record list. -/
def matchCount (l : List ResidueResult) : Nat :=
  (l.filter (fun r => r.res == Result.GOOD_MATCH)).length

/-- The record pushed by one traceback iteration at grid index `next`,
given the previous step state `st`. -/
def tbRecord (A B : List Char) (W : Nat) (st : TBState) (next : Nat) : ResidueResult :=
  let _iA : Int := (next % W : Nat) - 1
  let _iB : Int := (next / W : Nat) - 1
  let a := charAt A _iA
  let b := charAt B _iB
  { iA := _iA
    iB := _iB
    res := if a = b then Result.GOOD_MATCH
      else if st.iA = _iA then Result.B_NOMATCH
      else if st.iB = _iB then Result.A_NOMATCH
      else Result.NO_MATCH }

/-- Invariant carried through the traceback loop: every pushed record is
in bounds, consecutive pushed records are chained by `StepRel`, the
counters count the pushed classifications, and — whenever the loop will
actually run another iteration at `next` — the state's `iA`/`iB` are the
last pushed record's indices and the cell `next` is a diagonal, left or
top neighbour of that record's cell. -/
def TBInv (A B : List Char) (st : TBState) (next : Nat) : Prop :=
  (∀ r ∈ st.result, RecBounds A B r) ∧
  List.Chain' (StepRel A B) st.result ∧
  st.gaps = gapCount st.result ∧
  st.«matches» = matchCount st.result ∧
  (0 < (build A B).score next → next ≠ 0 →
    ∀ r, st.result.getLast? = some r →
      st.iA = r.iA ∧ st.iB = r.iB ∧
      ((((next % (A.length + 1) : Nat) : Int) - 1 = r.iA - 1 ∧
        ((next / (A.length + 1) : Nat) : Int) - 1 = r.iB - 1) ∨
       (((next % (A.length + 1) : Nat) : Int) - 1 = r.iA - 1 ∧
        ((next / (A.length + 1) : Nat) : Int) - 1 = r.iB) ∨
       (((next % (A.length + 1) : Nat) : Int) - 1 = r.iA ∧
        ((next / (A.length + 1) : Nat) : Int) - 1 = r.iB - 1)))

end Aligner

namespace Aligner

theorem cellScore_zero_left (A B : List Char) (y : Nat) : cellScore A B 0 y = 0 := by
  cases y <;> simp [cellScore]

theorem cellScore_zero_right (A B : List Char) (x : Nat) : cellScore A B x 0 = 0 := by
  cases x <;> simp [cellScore]

theorem cellScore_succ (A B : List Char) (x y : Nat) :
    cellScore A B (x + 1) (y + 1) =
      max (max (max (cellScore A B x y + (if A.get? x = B.get? y then 1 else -1))
        (cellScore A B x (y + 1) - 1)) (cellScore A B (x + 1) y - 1)) 0 := by
  rw [cellScore]
  simp [matchReward, mismatchPenalty, gapPenalty]

theorem cellScore_nonneg (A B : List Char) (x y : Nat) : 0 ≤ cellScore A B x y := by
  match x, y with
  | 0, y => rw [cellScore_zero_left]
  | x + 1, 0 => rw [cellScore_zero_right]
  | x + 1, y + 1 => rw [cellScore_succ]; exact le_max_right _ _

theorem cellScore_pos_interior (A B : List Char) {x y : Nat}
    (h : 0 < cellScore A B x y) : x ≠ 0 ∧ y ≠ 0 := by
  constructor
  · rintro rfl; rw [cellScore_zero_left] at h; exact absurd h (lt_irrefl 0)
  · rintro rfl; rw [cellScore_zero_right] at h; exact absurd h (lt_irrefl 0)

theorem lin_mod {x : Nat} (y : Nat) {W : Nat} (hx : x < W) : (x + y * W) % W = x := by
  rw [Nat.add_mul_mod_self_right, Nat.mod_eq_of_lt hx]

theorem lin_div {x : Nat} (y : Nat) {W : Nat} (hx : x < W) : (x + y * W) / W = y := by
  rw [Nat.add_mul_div_right _ _ (Nat.lt_of_le_of_lt (Nat.zero_le x) hx),
    Nat.div_eq_of_lt hx, Nat.zero_add]

theorem lin_decomp (k W : Nat) : k % W + (k / W) * W = k := by
  rw [Nat.mul_comm]; exact Nat.mod_add_div k W

theorem buildUpTo_succ (A B : List Char) (k : Nat) :
    buildUpTo A B (k + 1) = buildStep A B (A.length + 1) (buildUpTo A B k) k := by
  unfold buildUpTo
  rw [List.range_succ, List.foldl_append, List.foldl_cons, List.foldl_nil]

/-- Main loop invariant of the matrix-filling pass: after `k` iterations,
every processed cell holds the declarative score and predecessor, every
unprocessed cell still holds the buffer's initial zero, and the maximum
tracking upper-bounds all processed scores and points at a processed cell
(or the origin). -/
theorem buildUpTo_spec (A B : List Char) (k : Nat) :
    (∀ i, i < k → (buildUpTo A B k).score i
        = cellScore A B (i % (A.length + 1)) (i / (A.length + 1))) ∧
    (∀ i, k ≤ i → (buildUpTo A B k).score i = 0) ∧
    (∀ i, i < k → (buildUpTo A B k).next i
        = cellNext A B (A.length + 1) (i % (A.length + 1)) (i / (A.length + 1))) ∧
    (∀ i, k ≤ i → (buildUpTo A B k).next i = 0) ∧
    0 ≤ (buildUpTo A B k).maxScore ∧
    (∀ i, i < k → (buildUpTo A B k).score i ≤ (buildUpTo A B k).maxScore) ∧
    (buildUpTo A B k).maxScore
      = cellScore A B ((buildUpTo A B k).maxIndex % (A.length + 1))
          ((buildUpTo A B k).maxIndex / (A.length + 1)) ∧
    ((buildUpTo A B k).maxIndex = 0 ∨ (buildUpTo A B k).maxIndex < k) := by
  induction k with
  | zero =>
    refine ⟨fun i hi => absurd hi (Nat.not_lt_zero i), fun i _ => rfl,
      fun i hi => absurd hi (Nat.not_lt_zero i), fun i _ => rfl,
      le_refl 0, fun i hi => absurd hi (Nat.not_lt_zero i), ?_, Or.inl rfl⟩
    show (0 : Int) = cellScore A B (0 % (A.length + 1)) (0 / (A.length + 1))
    rw [Nat.zero_mod, Nat.zero_div, cellScore_zero_left]
  | succ k ih =>
    obtain ⟨ihS, ihS0, ihN, ihN0, ihMn, ihMub, ihMeq, ihMi⟩ := ih
    rw [buildUpTo_succ]
    set W := A.length + 1 with hW
    have hW0 : 0 < W := Nat.succ_pos _
    set s := buildUpTo A B k with hs
    by_cases hb : k / W = 0 ∨ k % W = 0
    · -- boundary cell: the loop body is skipped
      have hstep : buildStep A B W s k = s := by
        unfold buildStep
        rw [if_pos hb]
      rw [hstep]
      have hcell0 : cellScore A B (k % W) (k / W) = 0 := by
        rcases hb with h | h
        · rw [h, cellScore_zero_right]
        · rw [h, cellScore_zero_left]
      have hnext0 : cellNext A B W (k % W) (k / W) = 0 := by
        unfold cellNext
        rw [if_pos (by tauto)]
      refine ⟨?_, ?_, ?_, ?_, ihMn, ?_, ihMeq, ?_⟩
      · intro i hi
        rcases Nat.lt_succ_iff_lt_or_eq.mp hi with h | rfl
        · exact ihS i h
        · rw [ihS0 i (le_refl i), hcell0]
      · intro i hi; exact ihS0 i (Nat.le_of_succ_le hi)
      · intro i hi
        rcases Nat.lt_succ_iff_lt_or_eq.mp hi with h | rfl
        · exact ihN i h
        · rw [ihN0 i (le_refl i), hnext0]
      · intro i hi; exact ihN0 i (Nat.le_of_succ_le hi)
      · intro i hi
        rcases Nat.lt_succ_iff_lt_or_eq.mp hi with h | rfl
        · exact ihMub i h
        · rw [ihS0 i (le_refl i)]; exact ihMn
      · rcases ihMi with h | h
        · exact Or.inl h
        · exact Or.inr (Nat.lt_succ_of_lt h)
    · -- interior cell
      push_neg at hb
      obtain ⟨hy, hx⟩ := hb
      obtain ⟨x', hx'⟩ : ∃ x', k % W = x' + 1 := ⟨k % W - 1, (Nat.succ_pred_eq_of_pos (Nat.pos_of_ne_zero hx)).symm⟩
      obtain ⟨y', hy'⟩ : ∃ y', k / W = y' + 1 := ⟨k / W - 1, (Nat.succ_pred_eq_of_pos (Nat.pos_of_ne_zero hy)).symm⟩
      have hxW : x' + 1 < W := hx' ▸ Nat.mod_lt k hW0
      have hx'W : x' < W := Nat.lt_of_succ_lt hxW
      have hk : (x' + 1) + (y' + 1) * W = k := by rw [← hx', ← hy']; exact lin_decomp k W
      have hmulW : (y' + 1) * W = y' * W + W := Nat.succ_mul y' W
      have hiD : x' + y' * W < k := by omega
      have hiL : x' + (y' + 1) * W < k := by omega
      have hiT : (x' + 1) + y' * W < k := by omega
      have hsD : s.score (x' + y' * W) = cellScore A B x' y' := by
        rw [ihS _ hiD, lin_mod y' hx'W, lin_div y' hx'W]
      have hsL : s.score (x' + (y' + 1) * W) = cellScore A B x' (y' + 1) := by
        rw [ihS _ hiL, lin_mod (y' + 1) hx'W, lin_div (y' + 1) hx'W]
      have hsT : s.score ((x' + 1) + y' * W) = cellScore A B (x' + 1) y' := by
        rw [ihS _ hiT, lin_mod y' hxW, lin_div y' hxW]
      have hstep : buildStep A B W s k =
          { score := upd s.score k (cellScore A B (x' + 1) (y' + 1))
            next := upd s.next k (cellNext A B W (x' + 1) (y' + 1))
            maxScore := if cellScore A B (x' + 1) (y' + 1) > s.maxScore
              then cellScore A B (x' + 1) (y' + 1) else s.maxScore
            maxIndex := if cellScore A B (x' + 1) (y' + 1) > s.maxScore
              then k else s.maxIndex } := by
        unfold buildStep
        rw [if_neg (by rw [hx', hy']; simp)]
        rw [hx', hy']
        simp only [Nat.add_sub_cancel]
        rw [hsD, hsL, hsT]
        have hcs : cellScore A B (x' + 1) (y' + 1)
            = max (max (max (cellScore A B x' y'
                + (if A.get? x' = B.get? y' then matchReward else mismatchPenalty))
              (cellScore A B x' (y' + 1) - gapPenalty))
              (cellScore A B (x' + 1) y' - gapPenalty)) 0 := by
          rw [cellScore]
        have hcn : cellNext A B W (x' + 1) (y' + 1) =
            (if cellScore A B x' y'
                + (if A.get? x' = B.get? y' then matchReward else mismatchPenalty)
              = cellScore A B (x' + 1) (y' + 1) then x' + y' * W
            else if cellScore A B (x' + 1) (y' + 1) = cellScore A B x' (y' + 1) - gapPenalty
              then x' + (y' + 1) * W
            else if cellScore A B (x' + 1) (y' + 1) = cellScore A B (x' + 1) y' - gapPenalty
              then (x' + 1) + y' * W
            else 0) := by
          unfold cellNext
          rw [if_neg (by simp)]
          simp only [Nat.add_sub_cancel]
        rw [← hcs, ← hcn]
      rw [hstep]
      have hv := cellScore_nonneg A B (x' + 1) (y' + 1)
      constructor
      · intro i hi
        rcases Nat.lt_succ_iff_lt_or_eq.mp hi with h | rfl
        · show upd s.score k _ i = _
          rw [upd, if_neg (Nat.ne_of_lt h)]
          exact ihS i h
        · show upd s.score i _ i = _
          rw [upd, if_pos rfl, hx', hy']
      refine ⟨?_, ?_, ?_, ?_, ?_, ?_, ?_⟩
      · intro i hi
        show upd s.score k _ i = 0
        rw [upd, if_neg (by omega)]
        exact ihS0 i (by omega)
      · intro i hi
        rcases Nat.lt_succ_iff_lt_or_eq.mp hi with h | rfl
        · show upd s.next k _ i = _
          rw [upd, if_neg (Nat.ne_of_lt h)]
          exact ihN i h
        · show upd s.next i _ i = _
          rw [upd, if_pos rfl, hx', hy']
      · intro i hi
        show upd s.next k _ i = 0
        rw [upd, if_neg (by omega)]
        exact ihN0 i (by omega)
      · show (0 : Int) ≤ if _ > s.maxScore then _ else s.maxScore
        split
        · exact hv
        · exact ihMn
      · intro i hi
        rcases Nat.lt_succ_iff_lt_or_eq.mp hi with h | rfl
        · show upd s.score k _ i ≤ _
          rw [upd, if_neg (Nat.ne_of_lt h)]
          split
          · exact le_trans (ihMub i h) (le_of_lt (by assumption))
          · exact ihMub i h
        · show upd s.score i _ i ≤ _
          rw [upd, if_pos rfl]
          split
          · exact le_refl _
          · exact le_of_not_lt (by assumption)
      · show (if _ > s.maxScore then _ else s.maxScore)
            = cellScore A B ((if _ > s.maxScore then k else s.maxIndex) % W)
              ((if _ > s.maxScore then k else s.maxIndex) / W)
        split
        · rw [hx', hy']
        · exact ihMeq
      · show (if _ > s.maxScore then k else s.maxIndex) = 0 ∨ _ < k + 1
        split
        · exact Or.inr (Nat.lt_succ_self k)
        · rcases ihMi with h | h
          · exact Or.inl h
          · exact Or.inr (Nat.lt_succ_of_lt h)

end Aligner

namespace Aligner

theorem build_score (A B : List Char) {i : Nat}
    (h : i < (A.length + 1) * (B.length + 1)) :
    (build A B).score i = cellScore A B (i % (A.length + 1)) (i / (A.length + 1)) :=
  (buildUpTo_spec A B _).1 i h

theorem build_score_oob (A B : List Char) {i : Nat}
    (h : (A.length + 1) * (B.length + 1) ≤ i) : (build A B).score i = 0 :=
  (buildUpTo_spec A B _).2.1 i h

theorem build_next (A B : List Char) {i : Nat}
    (h : i < (A.length + 1) * (B.length + 1)) :
    (build A B).next i = cellNext A B (A.length + 1) (i % (A.length + 1)) (i / (A.length + 1)) :=
  (buildUpTo_spec A B _).2.2.1 i h

theorem build_maxScore_nonneg (A B : List Char) : 0 ≤ (build A B).maxScore :=
  (buildUpTo_spec A B _).2.2.2.2.1

theorem build_score_le (A B : List Char) {i : Nat}
    (h : i < (A.length + 1) * (B.length + 1)) :
    (build A B).score i ≤ (build A B).maxScore :=
  (buildUpTo_spec A B _).2.2.2.2.2.1 i h

theorem build_maxScore_eq (A B : List Char) :
    (build A B).maxScore = cellScore A B ((build A B).maxIndex % (A.length + 1))
      ((build A B).maxIndex / (A.length + 1)) :=
  (buildUpTo_spec A B _).2.2.2.2.2.2.1

theorem build_maxIndex_lt (A B : List Char) :
    (build A B).maxIndex < (A.length + 1) * (B.length + 1) := by
  have h0 : 0 < (A.length + 1) * (B.length + 1) :=
    Nat.mul_pos (Nat.succ_pos _) (Nat.succ_pos _)
  rcases (buildUpTo_spec A B ((A.length + 1) * (B.length + 1))).2.2.2.2.2.2.2 with h | h
  · show (buildUpTo A B ((A.length + 1) * (B.length + 1))).maxIndex
        < (A.length + 1) * (B.length + 1)
    rw [h]; exact h0
  · exact h

theorem cellScore_le_max (A B : List Char) {x y : Nat}
    (hx : x < A.length + 1) (hy : y < B.length + 1) :
    cellScore A B x y ≤ (build A B).maxScore := by
  have h1 : y * (A.length + 1) ≤ B.length * (A.length + 1) :=
    Nat.mul_le_mul_right _ (Nat.lt_succ_iff.mp hy)
  have h2 : (A.length + 1) * (B.length + 1) = B.length * (A.length + 1) + (A.length + 1) := by
    ring
  have hi : x + y * (A.length + 1) < (A.length + 1) * (B.length + 1) := by omega
  have hub := build_score_le A B hi
  rwa [build_score A B hi, lin_mod y hx, lin_div y hx] at hub

end Aligner

namespace Aligner

theorem max4_choice (a b c : Int) :
    max (max (max a b) c) 0 = a ∨ max (max (max a b) c) 0 = b ∨
    max (max (max a b) c) 0 = c ∨ max (max (max a b) c) 0 = 0 := by
  rcases max_choice (max (max a b) c) 0 with h | h
  · rcases max_choice (max a b) c with h2 | h2
    · rcases max_choice a b with h3 | h3
      · exact Or.inl (by rw [h, h2, h3])
      · exact Or.inr (Or.inl (by rw [h, h2, h3]))
    · exact Or.inr (Or.inr (Or.inl (by rw [h, h2])))
  · exact Or.inr (Or.inr (Or.inr h))

theorem cellScore_eq_candidate (A B : List Char) (x y : Nat)
    (hpos : 0 < cellScore A B (x + 1) (y + 1)) :
    cellScore A B (x + 1) (y + 1)
      = cellScore A B x y + (if A.get? x = B.get? y then 1 else -1) ∨
    cellScore A B (x + 1) (y + 1) = cellScore A B x (y + 1) - 1 ∨
    cellScore A B (x + 1) (y + 1) = cellScore A B (x + 1) y - 1 := by
  have h := cellScore_succ A B x y
  rcases max4_choice (cellScore A B x y + (if A.get? x = B.get? y then 1 else -1))
      (cellScore A B x (y + 1) - 1) (cellScore A B (x + 1) y - 1) with h4 | h4 | h4 | h4
  · exact Or.inl (by rw [h, h4])
  · exact Or.inr (Or.inl (by rw [h, h4]))
  · exact Or.inr (Or.inr (by rw [h, h4]))
  · rw [h, h4] at hpos; exact absurd hpos (lt_irrefl 0)

theorem max_cell_match (A B : List Char) (h : 0 < (build A B).maxScore) :
    ∃ x y : Nat, (build A B).maxIndex % (A.length + 1) = x + 1 ∧
      (build A B).maxIndex / (A.length + 1) = y + 1 ∧
      x < A.length ∧ y < B.length ∧
      A.get? x = B.get? y ∧
      (build A B).maxScore = cellScore A B (x + 1) (y + 1) := by
  have hme := build_maxScore_eq A B
  have hpos : 0 < cellScore A B ((build A B).maxIndex % (A.length + 1))
      ((build A B).maxIndex / (A.length + 1)) := hme ▸ h
  obtain ⟨hx0, hy0⟩ := cellScore_pos_interior A B hpos
  obtain ⟨x, hx⟩ : ∃ x, (build A B).maxIndex % (A.length + 1) = x + 1 :=
    ⟨_ - 1, (Nat.succ_pred_eq_of_pos (Nat.pos_of_ne_zero hx0)).symm⟩
  obtain ⟨y, hy⟩ : ∃ y, (build A B).maxIndex / (A.length + 1) = y + 1 :=
    ⟨_ - 1, (Nat.succ_pred_eq_of_pos (Nat.pos_of_ne_zero hy0)).symm⟩
  have hxW : x + 1 < A.length + 1 := hx ▸ Nat.mod_lt _ (Nat.succ_pos _)
  have hyH : y + 1 < B.length + 1 := by
    rw [← hy]
    exact Nat.div_lt_iff_lt_mul (Nat.succ_pos _) |>.mpr
      (by rw [Nat.mul_comm]; exact build_maxIndex_lt A B)
  rw [hx, hy] at hpos hme
  have hd : 0 < cellScore A B (x + 1) (y + 1) := hpos
  have hcand := cellScore_eq_candidate A B x y hd
  have habs : ∀ z w : Nat, z < A.length + 1 → w < B.length + 1 →
      cellScore A B (x + 1) (y + 1) = cellScore A B z w - 1 → False := by
    intro z w hz hw heq
    have hle : cellScore A B z w ≤ (build A B).maxScore := cellScore_le_max A B hz hw
    rw [hme] at hle
    omega
  have hmatch : A.get? x = B.get? y := by
    by_contra hne
    rcases hcand with hc | hc | hc
    · rw [if_neg hne] at hc
      exact habs x y (Nat.lt_of_succ_lt hxW) (Nat.lt_of_succ_lt hyH) (by omega)
    · exact habs x (y + 1) (Nat.lt_of_succ_lt hxW) hyH hc
    · exact habs (x + 1) y hxW (Nat.lt_of_succ_lt hyH) hc
  exact ⟨x, y, hx, hy, by omega, by omega, hmatch, hme⟩

theorem cellNext_spec (A B : List Char) (W x y : Nat)
    (hpos : 0 < cellScore A B (x + 1) (y + 1)) :
    (cellNext A B W (x + 1) (y + 1) = x + y * W ∧
       cellScore A B (x + 1) (y + 1)
         = cellScore A B x y + (if A.get? x = B.get? y then 1 else -1)) ∨
    (cellNext A B W (x + 1) (y + 1) = x + (y + 1) * W ∧
       cellScore A B (x + 1) (y + 1) = cellScore A B x (y + 1) - 1) ∨
    (cellNext A B W (x + 1) (y + 1) = (x + 1) + y * W ∧
       cellScore A B (x + 1) (y + 1) = cellScore A B (x + 1) y - 1) := by
  have hcand := cellScore_eq_candidate A B x y hpos
  have hps : (if A.get? x = B.get? y then matchReward else mismatchPenalty)
      = (if A.get? x = B.get? y then (1 : Int) else -1) := by
    simp [matchReward, mismatchPenalty]
  unfold cellNext
  rw [if_neg (by simp)]
  simp only [Nat.add_sub_cancel, gapPenalty]
  rw [hps]
  by_cases h1 : cellScore A B x y + (if A.get? x = B.get? y then (1 : Int) else -1)
      = cellScore A B (x + 1) (y + 1)
  · rw [if_pos h1]
    exact Or.inl ⟨rfl, h1.symm⟩
  · rw [if_neg h1]
    by_cases h2 : cellScore A B (x + 1) (y + 1) = cellScore A B x (y + 1) - 1
    · rw [if_pos h2]
      exact Or.inr (Or.inl ⟨rfl, h2⟩)
    · rw [if_neg h2]
      by_cases h3 : cellScore A B (x + 1) (y + 1) = cellScore A B (x + 1) y - 1
      · rw [if_pos h3]
        exact Or.inr (Or.inr ⟨rfl, h3⟩)
      · exfalso
        rcases hcand with hc | hc | hc
        · exact h1 hc.symm
        · exact h2 hc
        · exact h3 hc

end Aligner

namespace Aligner

/-- Everything the traceback reasoning needs about a visited cell `i` with
positive score: its coordinates are interior, its score is the declarative
cell score, and its stored next index is the diagonal, left or top
neighbour (with the corresponding score relation), is strictly smaller
than `i`, and on a residue mismatch has positive score and is nonzero. -/
theorem traceback_cell_facts (A B : List Char) {i : Nat}
    (hi : i < (A.length + 1) * (B.length + 1))
    (hpos : 0 < (build A B).score i) :
    ∃ x y : Nat,
      i % (A.length + 1) = x + 1 ∧ i / (A.length + 1) = y + 1 ∧
      x < A.length ∧ y < B.length ∧
      (build A B).score i = cellScore A B (x + 1) (y + 1) ∧
      (((build A B).next i = x + y * (A.length + 1) ∧
          cellScore A B (x + 1) (y + 1)
            = cellScore A B x y + (if A.get? x = B.get? y then 1 else -1)) ∨
       ((build A B).next i = x + (y + 1) * (A.length + 1) ∧
          cellScore A B (x + 1) (y + 1) = cellScore A B x (y + 1) - 1) ∨
       ((build A B).next i = (x + 1) + y * (A.length + 1) ∧
          cellScore A B (x + 1) (y + 1) = cellScore A B (x + 1) y - 1)) ∧
      (build A B).next i < i ∧
      (A.get? x ≠ B.get? y →
        0 < (build A B).score ((build A B).next i) ∧ (build A B).next i ≠ 0) := by
  have hsc := build_score A B hi
  have hcpos : 0 < cellScore A B (i % (A.length + 1)) (i / (A.length + 1)) := hsc ▸ hpos
  obtain ⟨hx0, hy0⟩ := cellScore_pos_interior A B hcpos
  obtain ⟨x, hx⟩ : ∃ x, i % (A.length + 1) = x + 1 :=
    ⟨_ - 1, (Nat.succ_pred_eq_of_pos (Nat.pos_of_ne_zero hx0)).symm⟩
  obtain ⟨y, hy⟩ : ∃ y, i / (A.length + 1) = y + 1 :=
    ⟨_ - 1, (Nat.succ_pred_eq_of_pos (Nat.pos_of_ne_zero hy0)).symm⟩
  have hxW : x + 1 < A.length + 1 := hx ▸ Nat.mod_lt _ (Nat.succ_pos _)
  have hyH : y + 1 < B.length + 1 := by
    rw [← hy]
    exact Nat.div_lt_iff_lt_mul (Nat.succ_pos _) |>.mpr (by rw [Nat.mul_comm]; exact hi)
  rw [hx, hy] at hsc hcpos
  have hdecomp : (x + 1) + (y + 1) * (A.length + 1) = i := by
    rw [← hx, ← hy]; exact lin_decomp i (A.length + 1)
  have hmul : (y + 1) * (A.length + 1) = y * (A.length + 1) + (A.length + 1) :=
    Nat.succ_mul _ _
  have hnext : (build A B).next i = cellNext A B (A.length + 1) (x + 1) (y + 1) := by
    rw [build_next A B hi, hx, hy]
  have hspec := cellNext_spec A B (A.length + 1) x y hcpos
  rw [← hnext] at hspec
  have hlt : (build A B).next i < i := by
    rcases hspec with ⟨hp, _⟩ | ⟨hp, _⟩ | ⟨hp, _⟩ <;> omega
  refine ⟨x, y, hx, hy, by omega, by omega, hsc, hspec, hlt, ?_⟩
  intro hne
  have hisc : (build A B).score i = cellScore A B (x + 1) (y + 1) := hsc
  rcases hspec with ⟨hp, hv⟩ | ⟨hp, hv⟩ | ⟨hp, hv⟩
  · -- diagonal predecessor, mismatch: its score is one higher
    rw [if_neg hne] at hv
    have hplt : x + y * (A.length + 1) < (A.length + 1) * (B.length + 1) := by omega
    have hpsc : (build A B).score ((build A B).next i) = cellScore A B x y := by
      rw [hp, build_score A B hplt, lin_mod y (by omega), lin_div y (by omega)]
    constructor
    · rw [hpsc]; omega
    · rw [hp]
      intro h0
      have hx0' : x = 0 := by omega
      have hy0' : y = 0 := by
        rcases Nat.mul_eq_zero.mp (by omega : y * (A.length + 1) = 0) with h | h
        · exact h
        · omega
      subst hx0'
      subst hy0'
      rw [cellScore_zero_left] at hv
      omega
  · have hplt : x + (y + 1) * (A.length + 1) < (A.length + 1) * (B.length + 1) := by omega
    have hpsc : (build A B).score ((build A B).next i) = cellScore A B x (y + 1) := by
      rw [hp, build_score A B hplt, lin_mod (y + 1) (by omega), lin_div (y + 1) (by omega)]
    constructor
    · rw [hpsc]; omega
    · rw [hp]; omega
  · have hplt : (x + 1) + y * (A.length + 1) < (A.length + 1) * (B.length + 1) := by omega
    have hpsc : (build A B).score ((build A B).next i) = cellScore A B (x + 1) y := by
      rw [hp, build_score A B hplt, lin_mod y hxW, lin_div y hxW]
    constructor
    · rw [hpsc]; omega
    · rw [hp]; omega

end Aligner

namespace Aligner

theorem charAt_ofNat (s : List Char) (n : Nat) : charAt s (n : Int) = s.get? n := by
  unfold charAt
  rw [if_neg (by omega), Int.toNat_ofNat]

theorem gapCount_append (l1 l2 : List ResidueResult) :
    gapCount (l1 ++ l2) = gapCount l1 + gapCount l2 := by
  unfold gapCount
  rw [List.filter_append, List.length_append]

theorem matchCount_append (l1 l2 : List ResidueResult) :
    matchCount (l1 ++ l2) = matchCount l1 + matchCount l2 := by
  unfold matchCount
  rw [List.filter_append, List.length_append]

theorem tbStep_result (A B : List Char) (W next : Nat) (st : TBState) :
    (tbStep A B W next st).result = st.result ++ [tbRecord A B W st next] := rfl

theorem tbStep_iA (A B : List Char) (W next : Nat) (st : TBState) :
    (tbStep A B W next st).iA = (tbRecord A B W st next).iA := rfl

theorem tbStep_iB (A B : List Char) (W next : Nat) (st : TBState) :
    (tbStep A B W next st).iB = (tbRecord A B W st next).iB := rfl

theorem tbRecord_iA (A B : List Char) (W : Nat) (st : TBState) (next : Nat) :
    (tbRecord A B W st next).iA = ((next % W : Nat) : Int) - 1 := rfl

theorem tbRecord_iB (A B : List Char) (W : Nat) (st : TBState) (next : Nat) :
    (tbRecord A B W st next).iB = ((next / W : Nat) : Int) - 1 := rfl

theorem tbRecord_res_eq (A B : List Char) (W : Nat) (st : TBState) (next : Nat)
    (h : charAt A (((next % W : Nat) : Int) - 1) = charAt B (((next / W : Nat) : Int) - 1)) :
    (tbRecord A B W st next).res = Result.GOOD_MATCH := by
  simp only [tbRecord]
  rw [if_pos h]

theorem tbRecord_res_ne (A B : List Char) (W : Nat) (st : TBState) (next : Nat)
    (h : charAt A (((next % W : Nat) : Int) - 1) ≠ charAt B (((next / W : Nat) : Int) - 1)) :
    (tbRecord A B W st next).res =
      if st.iA = ((next % W : Nat) : Int) - 1 then Result.B_NOMATCH
      else if st.iB = ((next / W : Nat) : Int) - 1 then Result.A_NOMATCH
      else Result.NO_MATCH := by
  simp only [tbRecord]
  rw [if_neg h]

theorem tbStep_gaps (A B : List Char) (W next : Nat) (st : TBState) :
    (tbStep A B W next st).gaps = st.gaps + gapCount [tbRecord A B W st next] := by
  simp only [tbStep, tbRecord, gapCount]
  split_ifs <;> rfl

theorem tbStep_matches (A B : List Char) (W next : Nat) (st : TBState) :
    (tbStep A B W next st).«matches» = st.«matches» + matchCount [tbRecord A B W st next] := by
  simp only [tbStep, tbRecord, matchCount]
  split_ifs <;> rfl

theorem traceback_succ (A B : List Char) (W : Nat) (score : Nat → Int) (nxt : Nat → Nat)
    (fuel next : Nat) (st : TBState) :
    traceback A B W score nxt (fuel + 1) next st =
      if next = 0 ∨ score next ≤ 0 then st
      else traceback A B W score nxt fuel (nxt next) (tbStep A B W next st) := rfl

theorem traceback_prefix (A B : List Char) (W : Nat) (score : Nat → Int) (nxt : Nat → Nat) :
    ∀ (fuel next : Nat) (st : TBState),
      st.result <+: (traceback A B W score nxt fuel next st).result := by
  intro fuel
  induction fuel with
  | zero => intro next st; exact List.prefix_rfl
  | succ fuel ih =>
    intro next st
    rw [traceback_succ]
    split
    · exact List.prefix_rfl
    · refine List.IsPrefix.trans ?_ (ih (nxt next) (tbStep A B W next st))
      rw [tbStep_result]
      exact List.prefix_append _ _

end Aligner

namespace Aligner

/-- Main invariant of the traceback loop, by induction on the fuel: the
produced record list is in bounds and `StepRel`-chained, the counters
count classifications, the emitted length is bounded by the coordinate
sum of the start cell, the loop (when it pushed anything new) ends on a
residue-equal `GOOD_MATCH` record, and a positive-score nonzero start
index forces at least one push. -/
theorem traceback_main (A B : List Char) :
    ∀ (fuel next : Nat) (st : TBState),
      next < fuel →
      next < (A.length + 1) * (B.length + 1) →
      TBInv A B st next →
      ∀ out, out = traceback A B (A.length + 1) (build A B).score (build A B).next
          fuel next st →
      (∀ r ∈ out.result, RecBounds A B r) ∧
      List.Chain' (StepRel A B) out.result ∧
      out.gaps = gapCount out.result ∧
      out.«matches» = matchCount out.result ∧
      out.result.length ≤ st.result.length
        + (next % (A.length + 1) + next / (A.length + 1)) ∧
      (out.result = st.result ∨
        ∃ r, out.result.getLast? = some r ∧ r.res = Result.GOOD_MATCH ∧
          charAt A r.iA = charAt B r.iB) ∧
      (next ≠ 0 → 0 < (build A B).score next →
        st.result.length < out.result.length) := by
  intro fuel
  induction fuel with
  | zero =>
    intro next st hf
    exact absurd hf (Nat.not_lt_zero next)
  | succ fuel ih =>
    intro next st hf htot hinv out hout
    rw [traceback_succ] at hout
    by_cases hbrk : next = 0 ∨ (build A B).score next ≤ 0
    · rw [if_pos hbrk] at hout
      subst hout
      obtain ⟨hb, hc, hg, hm, _⟩ := hinv
      refine ⟨hb, hc, hg, hm, Nat.le_add_right _ _, Or.inl rfl, ?_⟩
      intro h0 hsc
      rcases hbrk with h | h
      · exact absurd h h0
      · omega
    · rw [if_neg hbrk] at hout
      push_neg at hbrk
      obtain ⟨hn0, hscpos'⟩ := hbrk
      have hscpos : 0 < (build A B).score next := hscpos'
      obtain ⟨x, y, hx, hy, hxb, hyb, hsc, hpred, hplt, hmsc⟩ :=
        traceback_cell_facts A B htot hscpos
      have hxW : x < A.length + 1 := by omega
      have hx1W : x + 1 < A.length + 1 := by omega
      have hr'iA : (tbRecord A B (A.length + 1) st next).iA = (x : Int) := by
        rw [tbRecord_iA, hx]; push_cast; ring
      have hr'iB : (tbRecord A B (A.length + 1) st next).iB = (y : Int) := by
        rw [tbRecord_iB, hy]; push_cast; ring
      have hr'b : RecBounds A B (tbRecord A B (A.length + 1) st next) := by
        unfold RecBounds
        rw [hr'iA, hr'iB]
        refine ⟨by omega, by omega, by omega, by omega⟩
      have hcharA : charAt A (tbRecord A B (A.length + 1) st next).iA = A.get? x := by
        rw [hr'iA, charAt_ofNat]
      have hcharB : charAt B (tbRecord A B (A.length + 1) st next).iB = B.get? y := by
        rw [hr'iB, charAt_ofNat]
      have hst'res : (tbStep A B (A.length + 1) next st).result
          = st.result ++ [tbRecord A B (A.length + 1) st next] := tbStep_result A B _ next st
      have hptot : (build A B).next next < (A.length + 1) * (B.length + 1) :=
        lt_trans hplt htot
      have hpfuel : (build A B).next next < fuel := by omega
      obtain ⟨hb, hc, hg, hm, hlink⟩ := hinv
      have hinv' : TBInv A B (tbStep A B (A.length + 1) next st) ((build A B).next next) := by
        refine ⟨?_, ?_, ?_, ?_, ?_⟩
        · intro r hr
          rw [hst'res] at hr
          rcases List.mem_append.mp hr with h | h
          · exact hb r h
          · rw [List.mem_singleton.mp h]; exact hr'b
        · rw [hst'res]
          rcases hcL : st.result.getLast? with _ | rL
          · rw [List.getLast?_eq_none_iff.mp hcL]
            exact List.chain'_singleton _
          · refine (List.chain'_append).mpr ⟨hc, List.chain'_singleton _, ?_⟩
            intro a ha b hb2
            rw [hcL, Option.mem_def, Option.some_inj] at ha
            simp only [List.head?_cons, Option.mem_def, Option.some_inj] at hb2
            subst ha
            subst hb2
            obtain ⟨hiA, hiB, hdelta⟩ := hlink hscpos hn0 rL hcL
            refine ⟨?_, ?_, ?_⟩
            · rcases hdelta with ⟨d1, d2⟩ | ⟨d1, d2⟩ | ⟨d1, d2⟩
              · exact Or.inl ⟨by rw [tbRecord_iA, d1], by rw [tbRecord_iB, d2]⟩
              · exact Or.inr (Or.inl ⟨by rw [tbRecord_iA, d1], by rw [tbRecord_iB, d2]⟩)
              · exact Or.inr (Or.inr ⟨by rw [tbRecord_iA, d1], by rw [tbRecord_iB, d2]⟩)
            · intro hcheq
              exact tbRecord_res_eq A B _ st next hcheq
            · intro hne
              rw [tbRecord_res_ne A B _ st next hne, tbRecord_iA, tbRecord_iB, hiA, hiB]
        · show (tbStep A B (A.length + 1) next st).gaps = _
          rw [tbStep_gaps, hst'res, gapCount_append, hg]
        · show (tbStep A B (A.length + 1) next st).«matches» = _
          rw [tbStep_matches, hst'res, matchCount_append, hm]
        · intro hppos hp0 r hrl
          rw [hst'res, List.getLast?_concat, Option.some_inj] at hrl
          subst hrl
          refine ⟨tbStep_iA A B _ next st, tbStep_iB A B _ next st, ?_⟩
          rcases hpred with ⟨hpe, _⟩ | ⟨hpe, _⟩ | ⟨hpe, _⟩
          · refine Or.inl ⟨?_, ?_⟩
            · rw [hpe, lin_mod y hxW, hr'iA]
            · rw [hpe, lin_div y hxW, hr'iB]
          · refine Or.inr (Or.inl ⟨?_, ?_⟩)
            · rw [hpe, lin_mod (y + 1) hxW, hr'iA]
            · rw [hpe, lin_div (y + 1) hxW, hr'iB]; push_cast; ring
          · refine Or.inr (Or.inr ⟨?_, ?_⟩)
            · rw [hpe, lin_mod y hx1W, hr'iA]; push_cast; ring
            · rw [hpe, lin_div y hx1W, hr'iB]
      obtain ⟨ob, oc, og, om, olen, olast, oprog⟩ :=
        ih ((build A B).next next) (tbStep A B (A.length + 1) next st) hpfuel hptot hinv' out hout
      have hl' : (tbStep A B (A.length + 1) next st).result.length = st.result.length + 1 := by
        rw [hst'res, List.length_append, List.length_singleton]
      refine ⟨ob, oc, og, om, ?_, ?_, ?_⟩
      · have hsum : (build A B).next next % (A.length + 1)
            + (build A B).next next / (A.length + 1) ≤ x + y + 1 := by
          rcases hpred with ⟨hpe, _⟩ | ⟨hpe, _⟩ | ⟨hpe, _⟩
          · rw [hpe, lin_mod y hxW, lin_div y hxW]; omega
          · rw [hpe, lin_mod (y + 1) hxW, lin_div (y + 1) hxW]; omega
          · rw [hpe, lin_mod y hx1W, lin_div y hx1W]; omega
        rw [hx, hy]
        omega
      · rcases olast with holast | holast
        · right
          have hr'match : charAt A (tbRecord A B (A.length + 1) st next).iA
              = charAt B (tbRecord A B (A.length + 1) st next).iB := by
            by_contra hne
            have hAB : A.get? x ≠ B.get? y := by
              rw [← hcharA, ← hcharB]; exact hne
            obtain ⟨hppos, hpne⟩ := hmsc hAB
            have hgrow := oprog hpne hppos
            rw [holast, hl'] at hgrow
            omega
          refine ⟨tbRecord A B (A.length + 1) st next, ?_, ?_, hr'match⟩
          · rw [holast, hst'res, List.getLast?_concat]
          · exact tbRecord_res_eq A B _ st next hr'match
        · exact Or.inr holast
      · intro _ _
        have hpre := traceback_prefix A B (A.length + 1) (build A B).score (build A B).next
          fuel ((build A B).next next) (tbStep A B (A.length + 1) next st)
        rw [← hout] at hpre
        have hlen := hpre.length_le
        omega

end Aligner

namespace Aligner

theorem build_score_maxIndex (A B : List Char) :
    (build A B).score (build A B).maxIndex = (build A B).maxScore := by
  rw [build_score A B (build_maxIndex_lt A B)]
  exact (build_maxScore_eq A B).symm

theorem build_maxIndex_ne_zero (A B : List Char) (h : 0 < (build A B).maxScore) :
    (build A B).maxIndex ≠ 0 := by
  intro h0
  have he := build_maxScore_eq A B
  rw [h0, Nat.zero_mod, Nat.zero_div, cellScore_zero_left] at he
  omega

theorem tracebackRun_eq (A B : List Char) :
    tracebackRun A B = traceback A B (A.length + 1) (build A B).score (build A B).next
      ((A.length + 1) * (B.length + 1)) (build A B).maxIndex
      { result := [], iA := 0, iB := 0, gaps := 0, «matches» := 0 } := rfl

theorem TBInv_init (A B : List Char) (next : Nat) :
    TBInv A B { result := [], iA := 0, iB := 0, gaps := 0, «matches» := 0 } next := by
  refine ⟨?_, List.chain'_nil, rfl, rfl, ?_⟩
  · intro r hr
    exact absurd hr (List.not_mem_nil r)
  · intro _ _ r hr
    exact absurd hr (by simp)

/-- The traceback pass of the engine: bounds, chaining, counters, length
budget, the last-pushed record (head of the final alignment) is a
residue-equal match, and a positive maximal score forces a non-empty
record list. -/
theorem tracebackRun_spec (A B : List Char) :
    (∀ r ∈ (tracebackRun A B).result, RecBounds A B r) ∧
    List.Chain' (StepRel A B) (tracebackRun A B).result ∧
    (tracebackRun A B).gaps = gapCount (tracebackRun A B).result ∧
    (tracebackRun A B).«matches» = matchCount (tracebackRun A B).result ∧
    (tracebackRun A B).result.length ≤ A.length + B.length ∧
    ((tracebackRun A B).result = [] ∨
      ∃ r, (tracebackRun A B).result.getLast? = some r ∧ r.res = Result.GOOD_MATCH ∧
        charAt A r.iA = charAt B r.iB) ∧
    (0 < (build A B).maxScore → (tracebackRun A B).result ≠ []) := by
  have h0 := build_maxIndex_lt A B
  obtain ⟨ob, oc, og, om, olen, olast, oprog⟩ :=
    traceback_main A B ((A.length + 1) * (B.length + 1)) (build A B).maxIndex
      { result := [], iA := 0, iB := 0, gaps := 0, «matches» := 0 }
      h0 h0 (TBInv_init A B _) (tracebackRun A B) (tracebackRun_eq A B)
  have hmodb : (build A B).maxIndex % (A.length + 1) ≤ A.length := by
    have h1 : (build A B).maxIndex % (A.length + 1) < A.length + 1 :=
      Nat.mod_lt _ (by omega)
    omega
  have hdivb : (build A B).maxIndex / (A.length + 1) ≤ B.length := by
    have h1 : (build A B).maxIndex / (A.length + 1) < B.length + 1 :=
      Nat.div_lt_iff_lt_mul (by omega) |>.mpr (by rw [Nat.mul_comm]; exact h0)
    omega
  refine ⟨ob, oc, og, om, by simp at olen; omega, olast, ?_⟩
  intro hpos
  have hne := build_maxIndex_ne_zero A B hpos
  have hsc : 0 < (build A B).score (build A B).maxIndex := by
    rw [build_score_maxIndex]; exact hpos
  have := oprog hne hsc
  simp at this
  exact List.ne_nil_of_length_pos this

theorem tracebackRun_empty (A B : List Char) (h : (build A B).maxScore ≤ 0) :
    (tracebackRun A B).result = [] := by
  obtain ⟨f, hf⟩ : ∃ f, (A.length + 1) * (B.length + 1) = f + 1 := by
    have hpos : 0 < (A.length + 1) * (B.length + 1) :=
      Nat.mul_pos (Nat.succ_pos _) (Nat.succ_pos _)
    exact ⟨(A.length + 1) * (B.length + 1) - 1, by omega⟩
  rw [tracebackRun_eq, hf, traceback_succ,
    if_pos (Or.inr (by rw [build_score_maxIndex]; exact h))]

/-- When the maximal score is positive, the first record the traceback
pushes (the head of the push-order list) is a residue-equal `GOOD_MATCH`
at the maximal cell. -/
theorem tracebackRun_head (A B : List Char) (h : 0 < (build A B).maxScore) :
    ∃ r, (tracebackRun A B).result.head? = some r ∧ r.res = Result.GOOD_MATCH ∧
      charAt A r.iA = charAt B r.iB := by
  obtain ⟨x, y, hx, hy, hxb, hyb, hmatch, hmax⟩ := max_cell_match A B h
  obtain ⟨f, hf⟩ : ∃ f, (A.length + 1) * (B.length + 1) = f + 1 := by
    have hpos : 0 < (A.length + 1) * (B.length + 1) :=
      Nat.mul_pos (Nat.succ_pos _) (Nat.succ_pos _)
    exact ⟨(A.length + 1) * (B.length + 1) - 1, by omega⟩
  have hne := build_maxIndex_ne_zero A B h
  have hsc : 0 < (build A B).score (build A B).maxIndex := by
    rw [build_score_maxIndex]; exact h
  have hrw : tracebackRun A B = traceback A B (A.length + 1) (build A B).score
      (build A B).next f ((build A B).next (build A B).maxIndex)
      (tbStep A B (A.length + 1) (build A B).maxIndex
        { result := [], iA := 0, iB := 0, gaps := 0, «matches» := 0 }) := by
    rw [tracebackRun_eq, hf, traceback_succ, if_neg (by push_neg; exact ⟨hne, by omega⟩)]
  set st0 : TBState := { result := [], iA := 0, iB := 0, gaps := 0, «matches» := 0 }
  have hr'iA : (tbRecord A B (A.length + 1) st0 (build A B).maxIndex).iA = (x : Int) := by
    rw [tbRecord_iA, hx]; push_cast; ring
  have hr'iB : (tbRecord A B (A.length + 1) st0 (build A B).maxIndex).iB = (y : Int) := by
    rw [tbRecord_iB, hy]; push_cast; ring
  have hchar : charAt A (tbRecord A B (A.length + 1) st0 (build A B).maxIndex).iA
      = charAt B (tbRecord A B (A.length + 1) st0 (build A B).maxIndex).iB := by
    rw [hr'iA, hr'iB, charAt_ofNat, charAt_ofNat, hmatch]
  refine ⟨tbRecord A B (A.length + 1) st0 (build A B).maxIndex, ?_,
    tbRecord_res_eq A B _ st0 _ hchar, hchar⟩
  rw [hrw]
  obtain ⟨t, ht⟩ := traceback_prefix A B (A.length + 1) (build A B).score (build A B).next
    f ((build A B).next (build A B).maxIndex)
    (tbStep A B (A.length + 1) (build A B).maxIndex st0)
  rw [← ht, tbStep_result]
  rfl

end Aligner

namespace Aligner

theorem analize_alignment (s1 s2 : Sequence) :
    (analize s1 s2).alignment = (tracebackRun s1.sequence s2.sequence).result.reverse := rfl

theorem analize_stats_none (s1 s2 : Sequence)
    (h : (tracebackRun s1.sequence s2.sequence).result = []) :
    (analize s1 s2).stats = none := by
  simp only [analize]
  rw [h]

theorem analize_stats_some (s1 s2 : Sequence) (r0 : ResidueResult) (rest : List ResidueResult)
    (h : (tracebackRun s1.sequence s2.sequence).result = r0 :: rest) :
    (analize s1 s2).stats = some
      { alignmentLength := (r0 :: rest).length
        alignmentMatchPercent := ((tracebackRun s1.sequence s2.sequence).«matches» : Rat)
          / ((r0 :: rest).length : Rat)
        permutations := (s1.sequence.length + 1) * (s2.sequence.length + 1)
        sequence1 :=
          { name := s1.name
            length := s1.sequence.length
            «end» := r0.iA
            start := ((r0 :: rest).getLastD r0).iA }
        sequence2 :=
          { name := s2.name
            length := s2.sequence.length
            «end» := r0.iB
            start := ((r0 :: rest).getLastD r0).iB } } := by
  simp only [analize]
  rw [h]

end Aligner

namespace Aligner

theorem lin_lt_total {x y W H : Nat} (hx : x < W) (hy : y < H) : x + y * W < W * H := by
  obtain ⟨H', rfl⟩ : ∃ H', H = H' + 1 := ⟨H - 1, by omega⟩
  have h1 : y * W ≤ H' * W := Nat.mul_le_mul_right _ (by omega)
  have h2 : W * (H' + 1) = H' * W + W := by ring
  omega

/-- Transposition: swapping the two sequences transposes the scoring
matrix. -/
theorem cellScore_transpose (A B : List Char) :
    ∀ n x y, x + y ≤ n → cellScore A B x y = cellScore B A y x := by
  intro n
  induction n with
  | zero =>
    intro x y h
    obtain rfl : x = 0 := by omega
    obtain rfl : y = 0 := by omega
    rw [cellScore_zero_left, cellScore_zero_left]
  | succ n ih =>
    intro x y h
    match x, y with
    | 0, y => rw [cellScore_zero_left, cellScore_zero_right]
    | x + 1, 0 => rw [cellScore_zero_right, cellScore_zero_left]
    | x + 1, y + 1 =>
      rw [cellScore_succ, cellScore_succ,
        ih x y (by omega), ih x (y + 1) (by omega), ih (x + 1) y (by omega)]
      have hps : (if A.get? x = B.get? y then (1 : Int) else -1)
          = (if B.get? y = A.get? x then (1 : Int) else -1) := by
        by_cases hc : A.get? x = B.get? y
        · rw [if_pos hc, if_pos hc.symm]
        · rw [if_neg hc, if_neg (fun hh => hc hh.symm)]
      rw [hps, sup_right_comm (cellScore B A y x + _)
        (cellScore B A (y + 1) x - 1) (cellScore B A y (x + 1) - 1)]

theorem pairwise_of_chain (A B : List Char) (l : List ResidueResult)
    (h : List.Chain' (StepRel A B) l) :
    List.Pairwise (fun r r' => r'.iA ≤ r.iA ∧ r'.iB ≤ r.iB) l := by
  haveI : IsTrans ResidueResult (fun r r' => r'.iA ≤ r.iA ∧ r'.iB ≤ r.iB) :=
    ⟨fun a b c hab hbc => ⟨le_trans hbc.1 hab.1, le_trans hbc.2 hab.2⟩⟩
  refine List.chain'_iff_pairwise.mp (h.imp ?_)
  intro a b hab
  obtain ⟨hd, _, _⟩ := hab
  rcases hd with ⟨h1, h2⟩ | ⟨h1, h2⟩ | ⟨h1, h2⟩ <;> exact ⟨by omega, by omega⟩

theorem pairwise_head_le (l : List ResidueResult) (r0 : ResidueResult)
    (hp : List.Pairwise (fun a b => b.iA ≤ a.iA ∧ b.iB ≤ a.iB) l)
    (hh : l.head? = some r0) :
    ∀ r ∈ l, r.iA ≤ r0.iA ∧ r.iB ≤ r0.iB := by
  cases l with
  | nil => intro r hr; exact absurd hr (List.not_mem_nil r)
  | cons a t =>
    rw [List.head?_cons, Option.some_inj] at hh
    subst hh
    intro r hr
    rcases List.mem_cons.mp hr with rfl | hr
    · exact ⟨le_refl _, le_refl _⟩
    · exact (List.pairwise_cons.mp hp).1 r hr

theorem pairwise_head_ge (l : List ResidueResult) (r0 : ResidueResult)
    (hp : List.Pairwise (fun a b => a.iA ≤ b.iA ∧ a.iB ≤ b.iB) l)
    (hh : l.head? = some r0) :
    ∀ r ∈ l, r0.iA ≤ r.iA ∧ r0.iB ≤ r.iB := by
  cases l with
  | nil => intro r hr; exact absurd hr (List.not_mem_nil r)
  | cons a t =>
    rw [List.head?_cons, Option.some_inj] at hh
    subst hh
    intro r hr
    rcases List.mem_cons.mp hr with rfl | hr
    · exact ⟨le_refl _, le_refl _⟩
    · exact (List.pairwise_cons.mp hp).1 r hr

theorem pairwise_head_last (l : List ResidueResult) (r0 rL : ResidueResult)
    (hp : List.Pairwise (fun a b => b.iA ≤ a.iA ∧ b.iB ≤ a.iB) l)
    (hh : l.head? = some r0) (hl : l.getLast? = some rL) :
    ∀ r ∈ l, rL.iA ≤ r.iA ∧ r.iA ≤ r0.iA ∧ rL.iB ≤ r.iB ∧ r.iB ≤ r0.iB := by
  intro r hr
  have hup := pairwise_head_le l r0 hp hh r hr
  have hrev : List.Pairwise (fun a b => a.iA ≤ b.iA ∧ a.iB ≤ b.iB) l.reverse :=
    List.pairwise_reverse.mpr hp
  have hh' : l.reverse.head? = some rL := by rw [List.head?_reverse]; exact hl
  have hlow := pairwise_head_ge l.reverse rL hrev hh' r (List.mem_reverse.mpr hr)
  exact ⟨hlow.1, hup.1, hlow.2, hup.2⟩

end Aligner

namespace Aligner

/-- C8: every cell of the `(n+1)×(m+1)` scoring matrix has score `≥ 0`,
and every cell in row 0 or column 0 has score exactly `0` and stored
predecessor `0` (none). -/
theorem C8_matrix_invariants (A B : List Char) (x y : Nat)
    (hx : x ≤ A.length) (hy : y ≤ B.length) :
    0 ≤ (build A B).score (x + y * (A.length + 1)) ∧
    (x = 0 ∨ y = 0 →
      (build A B).score (x + y * (A.length + 1)) = 0 ∧
      (build A B).next (x + y * (A.length + 1)) = 0) := by
  have hxW : x < A.length + 1 := by omega
  have hyH : y < B.length + 1 := by omega
  have hi := lin_lt_total hxW hyH
  constructor
  · rw [build_score A B hi, lin_mod y hxW, lin_div y hxW]
    exact cellScore_nonneg A B x y
  · intro hb
    constructor
    · rw [build_score A B hi, lin_mod y hxW, lin_div y hxW]
      rcases hb with rfl | rfl
      · exact cellScore_zero_left A B y
      · exact cellScore_zero_right A B x
    · rw [build_next A B hi, lin_mod y hxW, lin_div y hxW]
      unfold cellNext
      rw [if_pos hb]

/-- C4: at every interior cell of the built matrix, the stored score is
the maximum of the diagonal (±1), left (−1) and top (−1) candidates and
0, and the stored predecessor is selected by comparing in the order
diagonal, left, top (else none). -/
theorem C4_recurrence_tiebreak (A B : List Char) (x y : Nat)
    (hx1 : 1 ≤ x) (hx2 : x ≤ A.length) (hy1 : 1 ≤ y) (hy2 : y ≤ B.length) :
    (build A B).score (x + y * (A.length + 1)) =
      max (max (max
        ((build A B).score ((x - 1) + (y - 1) * (A.length + 1))
          + (if A.get? (x - 1) = B.get? (y - 1) then 1 else -1))
        ((build A B).score ((x - 1) + y * (A.length + 1)) - 1))
        ((build A B).score (x + (y - 1) * (A.length + 1)) - 1)) 0 ∧
    (build A B).next (x + y * (A.length + 1)) =
      (if (build A B).score ((x - 1) + (y - 1) * (A.length + 1))
            + (if A.get? (x - 1) = B.get? (y - 1) then 1 else -1)
          = (build A B).score (x + y * (A.length + 1))
        then (x - 1) + (y - 1) * (A.length + 1)
        else if (build A B).score (x + y * (A.length + 1))
            = (build A B).score ((x - 1) + y * (A.length + 1)) - 1
        then (x - 1) + y * (A.length + 1)
        else if (build A B).score (x + y * (A.length + 1))
            = (build A B).score (x + (y - 1) * (A.length + 1)) - 1
        then x + (y - 1) * (A.length + 1)
        else 0) := by
  obtain ⟨x', rfl⟩ : ∃ x', x = x' + 1 := ⟨x - 1, by omega⟩
  obtain ⟨y', rfl⟩ : ∃ y', y = y' + 1 := ⟨y - 1, by omega⟩
  simp only [Nat.add_sub_cancel]
  have hx'W : x' < A.length + 1 := by omega
  have hxW : x' + 1 < A.length + 1 := by omega
  have hy'H : y' < B.length + 1 := by omega
  have hyH : y' + 1 < B.length + 1 := by omega
  have hsI : (build A B).score ((x' + 1) + (y' + 1) * (A.length + 1))
      = cellScore A B (x' + 1) (y' + 1) := by
    rw [build_score A B (lin_lt_total hxW hyH), lin_mod (y' + 1) hxW, lin_div (y' + 1) hxW]
  have hsD : (build A B).score (x' + y' * (A.length + 1)) = cellScore A B x' y' := by
    rw [build_score A B (lin_lt_total hx'W hy'H), lin_mod y' hx'W, lin_div y' hx'W]
  have hsL : (build A B).score (x' + (y' + 1) * (A.length + 1))
      = cellScore A B x' (y' + 1) := by
    rw [build_score A B (lin_lt_total hx'W hyH), lin_mod (y' + 1) hx'W, lin_div (y' + 1) hx'W]
  have hsT : (build A B).score ((x' + 1) + y' * (A.length + 1))
      = cellScore A B (x' + 1) y' := by
    rw [build_score A B (lin_lt_total hxW hy'H), lin_mod y' hxW, lin_div y' hxW]
  have hnI : (build A B).next ((x' + 1) + (y' + 1) * (A.length + 1))
      = cellNext A B (A.length + 1) (x' + 1) (y' + 1) := by
    rw [build_next A B (lin_lt_total hxW hyH), lin_mod (y' + 1) hxW, lin_div (y' + 1) hxW]
  constructor
  · rw [hsI, hsD, hsL, hsT]
    exact cellScore_succ A B x' y'
  · rw [hnI, hsI, hsD, hsL, hsT]
    unfold cellNext
    rw [if_neg (by simp)]
    simp only [Nat.add_sub_cancel, gapPenalty]
    have hps : (if A.get? x' = B.get? y' then matchReward else mismatchPenalty)
        = (if A.get? x' = B.get? y' then (1 : Int) else -1) := by
      simp [matchReward, mismatchPenalty]
    rw [hps]

/-- C7 (amended): swapping the two inputs preserves the maximal matrix
score.  (The alignment length and match percent are not preserved in
general; the counterexample theorem exhibits a tie broken differently by
the two scan orders.) -/
theorem C7_maxScore_symmetric (A B : List Char) :
    (build A B).maxScore = (build B A).maxScore := by
  have key : ∀ C D : List Char, (build C D).maxScore ≤ (build D C).maxScore := by
    intro C D
    have hme := build_maxScore_eq C D
    have hx : (build C D).maxIndex % (C.length + 1) < C.length + 1 :=
      Nat.mod_lt _ (by omega)
    have hy : (build C D).maxIndex / (C.length + 1) < D.length + 1 :=
      Nat.div_lt_iff_lt_mul (by omega) |>.mpr
        (by rw [Nat.mul_comm]; exact build_maxIndex_lt C D)
    rw [hme, cellScore_transpose C D
      ((build C D).maxIndex % (C.length + 1) + (build C D).maxIndex / (C.length + 1))
      _ _ le_rfl]
    exact cellScore_le_max D C hy hx
  exact le_antisymm (key A B) (key B A)

/-- C6: every traceback step emitted after another one is classified by
comparing residues and, when unequal, by the index-repetition rule
against the previously emitted step (`B_NOMATCH` if the sequence-1 index
repeats, else `A_NOMATCH` if the sequence-2 index repeats, else
`NO_MATCH`); equal residues always give `GOOD_MATCH` (also for the first
emitted step), and the gap counter counts exactly the
`A_NOMATCH`/`B_NOMATCH` records. -/
theorem C6_classification (s1 s2 : Sequence) :
    List.Chain' (fun prev cur =>
      (charAt s1.sequence cur.iA = charAt s2.sequence cur.iB →
        cur.res = Result.GOOD_MATCH) ∧
      (charAt s1.sequence cur.iA ≠ charAt s2.sequence cur.iB →
        cur.res = if prev.iA = cur.iA then Result.B_NOMATCH
          else if prev.iB = cur.iB then Result.A_NOMATCH
          else Result.NO_MATCH))
      (tracebackRun s1.sequence s2.sequence).result ∧
    (∀ r, (tracebackRun s1.sequence s2.sequence).result.head? = some r →
      r.res = Result.GOOD_MATCH) ∧
    (tracebackRun s1.sequence s2.sequence).gaps
      = gapCount (tracebackRun s1.sequence s2.sequence).result := by
  obtain ⟨_, hc, hg, _, _, _, _⟩ := tracebackRun_spec s1.sequence s2.sequence
  refine ⟨hc.imp ?_, ?_, hg⟩
  · intro a b hab
    exact ⟨hab.2.1, hab.2.2⟩
  · intro r hr
    have hne : (tracebackRun s1.sequence s2.sequence).result ≠ [] := by
      intro h0
      rw [h0] at hr
      exact absurd hr (by simp)
    have hpos : 0 < (build s1.sequence s2.sequence).maxScore := by
      by_contra hle
      push_neg at hle
      exact hne (tracebackRun_empty _ _ hle)
    obtain ⟨r', hr', hres, _⟩ := tracebackRun_head s1.sequence s2.sequence hpos
    rw [hr] at hr'
    injection hr' with hrr
    rw [← hrr] at hres
    exact hres

/-- C9: in a non-empty returned alignment, both the first record (the
traceback's stopping cell) and the last record (the maximal cell) pair
equal residues and are classified `GOOD_MATCH`. -/
theorem C9_endpoints (s1 s2 : Sequence) (h : (analize s1 s2).alignment ≠ []) :
    ∃ rfirst rlast,
      (analize s1 s2).alignment.head? = some rfirst ∧
      (analize s1 s2).alignment.getLast? = some rlast ∧
      rfirst.res = Result.GOOD_MATCH ∧
      charAt s1.sequence rfirst.iA = charAt s2.sequence rfirst.iB ∧
      rlast.res = Result.GOOD_MATCH ∧
      charAt s1.sequence rlast.iA = charAt s2.sequence rlast.iB := by
  have hres : (tracebackRun s1.sequence s2.sequence).result ≠ [] := by
    intro h0
    apply h
    rw [analize_alignment, h0]
    rfl
  have hpos : 0 < (build s1.sequence s2.sequence).maxScore := by
    by_contra hle
    push_neg at hle
    exact hres (tracebackRun_empty _ _ hle)
  obtain ⟨_, _, _, _, _, hlast, _⟩ := tracebackRun_spec s1.sequence s2.sequence
  rcases hlast with h0 | ⟨rf, hrf, hrfres, hrfchar⟩
  · exact absurd h0 hres
  obtain ⟨rl, hrl, hrlres, hrlchar⟩ := tracebackRun_head s1.sequence s2.sequence hpos
  refine ⟨rf, rl, ?_, ?_, hrfres, hrfchar, hrlres, hrlchar⟩
  · rw [analize_alignment, List.head?_reverse]
    exact hrf
  · rw [analize_alignment, List.getLast?_reverse]
    exact hrl

/-- C10: in the returned head→tail alignment, each consecutive pair of
records advances each index by 0 or 1 and never both by 0; all indices
are inside the sequences; and the record count is at most
`len(A) + len(B)`. -/
theorem C10_step_invariants (s1 s2 : Sequence) :
    List.Chain' (fun r r' =>
      (r'.iA = r.iA ∨ r'.iA = r.iA + 1) ∧
      (r'.iB = r.iB ∨ r'.iB = r.iB + 1) ∧
      ¬(r'.iA = r.iA ∧ r'.iB = r.iB)) (analize s1 s2).alignment ∧
    (∀ r ∈ (analize s1 s2).alignment,
      0 ≤ r.iA ∧ r.iA < s1.sequence.length ∧ 0 ≤ r.iB ∧ r.iB < s2.sequence.length) ∧
    (analize s1 s2).alignment.length ≤ s1.sequence.length + s2.sequence.length := by
  obtain ⟨hb, hc, _, _, hlen, _, _⟩ := tracebackRun_spec s1.sequence s2.sequence
  rw [analize_alignment]
  refine ⟨?_, ?_, ?_⟩
  · rw [List.chain'_reverse]
    refine hc.imp ?_
    intro a b hab
    obtain ⟨hd, _, _⟩ := hab
    show (a.iA = b.iA ∨ a.iA = b.iA + 1) ∧ (a.iB = b.iB ∨ a.iB = b.iB + 1) ∧
      ¬(a.iA = b.iA ∧ a.iB = b.iB)
    rcases hd with ⟨h1, h2⟩ | ⟨h1, h2⟩ | ⟨h1, h2⟩
    · exact ⟨Or.inr (by omega), Or.inr (by omega), by omega⟩
    · exact ⟨Or.inr (by omega), Or.inl (by omega), by omega⟩
    · exact ⟨Or.inl (by omega), Or.inr (by omega), by omega⟩
  · intro r hr
    rw [List.mem_reverse] at hr
    exact hb r hr
  · rw [List.length_reverse]
    exact hlen

/-- C1 (amended): in the statistics block, `end` is the index touched by
the LAST record of the head→tail alignment — the rightmost (largest)
touched index — and `start` is the index touched by the FIRST record —
the leftmost (smallest) touched index (the reference computes both
before reversing the traceback order). -/
theorem C1_start_end (s1 s2 : Sequence) (S : AlignmentStats)
    (h : (analize s1 s2).stats = some S) :
    (analize s1 s2).alignment ≠ [] ∧
    (∃ rlast, (analize s1 s2).alignment.getLast? = some rlast ∧
      S.sequence1.«end» = rlast.iA ∧ S.sequence2.«end» = rlast.iB) ∧
    (∃ rhead, (analize s1 s2).alignment.head? = some rhead ∧
      S.sequence1.start = rhead.iA ∧ S.sequence2.start = rhead.iB) ∧
    ∀ r ∈ (analize s1 s2).alignment,
      S.sequence1.start ≤ r.iA ∧ r.iA ≤ S.sequence1.«end» ∧
      S.sequence2.start ≤ r.iB ∧ r.iB ≤ S.sequence2.«end» := by
  rcases hres : (tracebackRun s1.sequence s2.sequence).result with _ | ⟨r0, rest⟩
  · rw [analize_stats_none s1 s2 hres] at h
    exact absurd h (by simp)
  · rw [analize_stats_some s1 s2 r0 rest hres, Option.some_inj] at h
    obtain ⟨_, hc, _, _, _, _, _⟩ := tracebackRun_spec s1.sequence s2.sequence
    rw [hres] at hc
    have hp := pairwise_of_chain s1.sequence s2.sequence _ hc
    obtain ⟨rL, hrL⟩ : ∃ rL, (r0 :: rest).getLast? = some rL :=
      ⟨(r0 :: rest).getLast (by simp), List.getLast?_eq_getLast _ (by simp)⟩
    have hgetD : (r0 :: rest).getLastD r0 = rL := by
      have h1 : (r0 :: rest).getLastD r0 = ((r0 :: rest).getLast?).getD r0 := rfl
      rw [h1, hrL]
      rfl
    have hbounds := pairwise_head_last (r0 :: rest) r0 rL hp (by rfl) hrL
    subst h
    refine ⟨?_, ⟨r0, ?_, ?_, ?_⟩, ⟨rL, ?_, ?_, ?_⟩, ?_⟩
    · rw [analize_alignment, hres]
      simp
    · rw [analize_alignment, hres, List.getLast?_reverse]
      rfl
    · rfl
    · rfl
    · rw [analize_alignment, hres, List.head?_reverse]
      exact hrL
    · show ((r0 :: rest).getLastD r0).iA = rL.iA
      rw [hgetD]
    · show ((r0 :: rest).getLastD r0).iB = rL.iB
      rw [hgetD]
    · intro r hr
      rw [analize_alignment, hres, List.mem_reverse] at hr
      obtain ⟨g1, g2, g3, g4⟩ := hbounds r hr
      refine ⟨?_, g2, ?_, g4⟩
      · show ((r0 :: rest).getLastD r0).iA ≤ r.iA
        rw [hgetD]
        exact g1
      · show ((r0 :: rest).getLastD r0).iB ≤ r.iB
        rw [hgetD]
        exact g3

end Aligner

namespace Aligner

set_option maxRecDepth 400000 in
/-- C3 (amended): on the concrete pair `ACACACTA` / `AGCACACA` with the
engine's parameters the maximal matrix score is 5 (realised e.g. by the
common substring `CACAC`) and the produced alignment has exactly 5
records. -/
theorem C3_score_and_length :
    (build "ACACACTA".toList "AGCACACA".toList).maxScore = 5 ∧
    (analize ⟨"s1", "ACACACTA".toList⟩ ⟨"s2", "AGCACACA".toList⟩).alignment.length = 5 := by
  decide

set_option maxRecDepth 400000 in
/-- C3 counterexample: the claimed score 6 / length 7 is false on the
code (the actual values are 5 and 5). -/
theorem C3_counterexample :
    ¬((build "ACACACTA".toList "AGCACACA".toList).maxScore = 6 ∧
      (analize ⟨"s1", "ACACACTA".toList⟩ ⟨"s2", "AGCACACA".toList⟩).alignment.length = 7) := by
  decide

set_option maxRecDepth 400000 in
/-- C2: on `AAAA` vs `TTTT` the maximal score is 0 and the record list is
empty, and the statistics block then dereferences `result[0]` of an empty
array (modelled `none`): the reference crashes instead of returning
sentinel statistics. -/
theorem C2_no_match_crash :
    (build "AAAA".toList "TTTT".toList).maxScore = 0 ∧
    (analize ⟨"s1", "AAAA".toList⟩ ⟨"s2", "TTTT".toList⟩).alignment = [] ∧
    (analize ⟨"s1", "AAAA".toList⟩ ⟨"s2", "TTTT".toList⟩).stats = none := by
  decide

set_option maxRecDepth 400000 in
/-- C5: an empty residue string is not rejected: the engine builds the
degenerate 1-wide grid (max score 0), produces an empty record list, and
then the statistics block dereferences `result[0]` of an empty array
(modelled `none`) — there is no InvalidInput outcome anywhere. -/
theorem C5_empty_input_not_rejected :
    (build "".toList "ACGT".toList).maxScore = 0 ∧
    (analize ⟨"s1", "".toList⟩ ⟨"s2", "ACGT".toList⟩).alignment = [] ∧
    (analize ⟨"s1", "".toList⟩ ⟨"s2", "ACGT".toList⟩).stats = none := by
  decide

set_option maxRecDepth 400000 in
/-- C7 counterexample: two cells tie at the maximal score 3; the
row-major scan of `(A, B)` finds the `GGG`/`GGG` cell first (alignment
length 3, match percent 1) while the scan of `(B, A)` finds the
`CTACA`/`CTCA` cell first (alignment length 5, match percent 4/5). -/
theorem C7_counterexample :
    ((analize ⟨"s1", "CTACAGGG".toList⟩ ⟨"s2", "GGGCTCA".toList⟩).stats.map
      (fun S => (S.alignmentLength, S.alignmentMatchPercent))) = some (3, 1) ∧
    ((analize ⟨"s2", "GGGCTCA".toList⟩ ⟨"s1", "CTACAGGG".toList⟩).stats.map
      (fun S => (S.alignmentLength, S.alignmentMatchPercent))) = some (5, 4 / 5) := by
  have h1 : (tracebackRun "CTACAGGG".toList "GGGCTCA".toList).result =
      ⟨7, 2, Result.GOOD_MATCH⟩ ::
        [⟨6, 1, Result.GOOD_MATCH⟩, ⟨5, 0, Result.GOOD_MATCH⟩] := by
    decide
  have h2 : (tracebackRun "GGGCTCA".toList "CTACAGGG".toList).result =
      ⟨6, 4, Result.GOOD_MATCH⟩ ::
        [⟨5, 3, Result.GOOD_MATCH⟩, ⟨4, 2, Result.NO_MATCH⟩,
         ⟨4, 1, Result.GOOD_MATCH⟩, ⟨3, 0, Result.GOOD_MATCH⟩] := by
    decide
  have hm1 : (tracebackRun "CTACAGGG".toList "GGGCTCA".toList).«matches» = 3 := by decide
  have hm2 : (tracebackRun "GGGCTCA".toList "CTACAGGG".toList).«matches» = 4 := by decide
  constructor
  · simp only [analize_stats_some ⟨"s1", "CTACAGGG".toList⟩ ⟨"s2", "GGGCTCA".toList⟩ _ _ h1,
      Option.map_some']
    simp only [hm1]
    norm_num
  · simp only [analize_stats_some ⟨"s2", "GGGCTCA".toList⟩ ⟨"s1", "CTACAGGG".toList⟩ _ _ h2,
      Option.map_some']
    simp only [hm2]
    norm_num

set_option maxRecDepth 400000 in
/-- C1 counterexample: aligning `AC` with `AC` touches indices 0 and 1;
the claim says `end` is the leftmost touched index (0) and `start` the
rightmost (1), but the code stores `end = 1` (rightmost) and
`start = 0` (leftmost). -/
theorem C1_counterexample :
    ((analize ⟨"s1", "AC".toList⟩ ⟨"s2", "AC".toList⟩).stats.map
      (fun S => (S.sequence1.start, S.sequence1.«end»))) = some (0, 1) ∧
    ((analize ⟨"s1", "AC".toList⟩ ⟨"s2", "AC".toList⟩).alignment.map
      (fun r => r.iA)) = [0, 1] := by
  decide

end Aligner

namespace Aligner

set_option maxRecDepth 100000 in
/-- Witness for C8 at `x = 0`, `y = 1` on `A` / `TG`. -/
theorem C8_witness :
    ((0 : Nat) ≤ List.length ['A'] ∧ (1 : Nat) ≤ List.length ['T', 'G']) ∧
    (0 ≤ (build ['A'] ['T', 'G']).score (0 + 1 * (List.length ['A'] + 1)) ∧
      ((0 : Nat) = 0 ∨ (1 : Nat) = 0 →
        (build ['A'] ['T', 'G']).score (0 + 1 * (List.length ['A'] + 1)) = 0 ∧
        (build ['A'] ['T', 'G']).next (0 + 1 * (List.length ['A'] + 1)) = 0)) :=
  ⟨⟨by decide, by decide⟩, C8_matrix_invariants ['A'] ['T', 'G'] 0 1 (by decide) (by decide)⟩

set_option maxRecDepth 100000 in
/-- Witness for C4 at the interior cell `(1, 1)` on `AC` / `AC`. -/
theorem C4_witness :
    ((1 : Nat) ≤ 1 ∧ (1 : Nat) ≤ List.length ['A', 'C'] ∧
      (1 : Nat) ≤ 1 ∧ (1 : Nat) ≤ List.length ['A', 'C']) ∧
    ((build ['A', 'C'] ['A', 'C']).score (1 + 1 * (List.length ['A', 'C'] + 1)) =
      max (max (max
        ((build ['A', 'C'] ['A', 'C']).score ((1 - 1) + (1 - 1) * (List.length ['A', 'C'] + 1))
          + (if ['A', 'C'].get? (1 - 1) = ['A', 'C'].get? (1 - 1) then 1 else -1))
        ((build ['A', 'C'] ['A', 'C']).score ((1 - 1) + 1 * (List.length ['A', 'C'] + 1)) - 1))
        ((build ['A', 'C'] ['A', 'C']).score (1 + (1 - 1) * (List.length ['A', 'C'] + 1)) - 1)) 0 ∧
     (build ['A', 'C'] ['A', 'C']).next (1 + 1 * (List.length ['A', 'C'] + 1)) =
      (if (build ['A', 'C'] ['A', 'C']).score ((1 - 1) + (1 - 1) * (List.length ['A', 'C'] + 1))
            + (if ['A', 'C'].get? (1 - 1) = ['A', 'C'].get? (1 - 1) then 1 else -1)
          = (build ['A', 'C'] ['A', 'C']).score (1 + 1 * (List.length ['A', 'C'] + 1))
        then (1 - 1) + (1 - 1) * (List.length ['A', 'C'] + 1)
        else if (build ['A', 'C'] ['A', 'C']).score (1 + 1 * (List.length ['A', 'C'] + 1))
            = (build ['A', 'C'] ['A', 'C']).score ((1 - 1) + 1 * (List.length ['A', 'C'] + 1)) - 1
        then (1 - 1) + 1 * (List.length ['A', 'C'] + 1)
        else if (build ['A', 'C'] ['A', 'C']).score (1 + 1 * (List.length ['A', 'C'] + 1))
            = (build ['A', 'C'] ['A', 'C']).score (1 + (1 - 1) * (List.length ['A', 'C'] + 1)) - 1
        then 1 + (1 - 1) * (List.length ['A', 'C'] + 1)
        else 0)) :=
  ⟨⟨le_refl 1, by decide, le_refl 1, by decide⟩,
    C4_recurrence_tiebreak ['A', 'C'] ['A', 'C'] 1 1 (le_refl 1) (by decide)
      (le_refl 1) (by decide)⟩

set_option maxRecDepth 100000 in
/-- Witness for C9 at `A` / `A`. -/
theorem C9_witness :
    (analize ⟨"s1", ['A']⟩ ⟨"s2", ['A']⟩).alignment ≠ [] ∧
    (∃ rfirst rlast,
      (analize ⟨"s1", ['A']⟩ ⟨"s2", ['A']⟩).alignment.head? = some rfirst ∧
      (analize ⟨"s1", ['A']⟩ ⟨"s2", ['A']⟩).alignment.getLast? = some rlast ∧
      rfirst.res = Result.GOOD_MATCH ∧
      charAt ['A'] rfirst.iA = charAt ['A'] rfirst.iB ∧
      rlast.res = Result.GOOD_MATCH ∧
      charAt ['A'] rlast.iA = charAt ['A'] rlast.iB) :=
  ⟨by decide, C9_endpoints ⟨"s1", ['A']⟩ ⟨"s2", ['A']⟩ (by decide)⟩

set_option maxRecDepth 100000 in
/-- Witness for C1 (amended) at `AC` / `AC`: the statistics block holds
`start = 0`, `end = 1` for both sequences, and the theorem applies. -/
theorem C1_witness :
    (analize ⟨"s1", "AC".toList⟩ ⟨"s2", "AC".toList⟩).stats = some
      { permutations := 9
        alignmentLength := 2
        alignmentMatchPercent := 1
        sequence1 := { name := "s1", length := 2, start := 0, «end» := 1 }
        sequence2 := { name := "s2", length := 2, start := 0, «end» := 1 } } ∧
    ((analize ⟨"s1", "AC".toList⟩ ⟨"s2", "AC".toList⟩).alignment ≠ [] ∧
     (∃ rlast,
       (analize ⟨"s1", "AC".toList⟩ ⟨"s2", "AC".toList⟩).alignment.getLast? = some rlast ∧
       (1 : Int) = rlast.iA ∧ (1 : Int) = rlast.iB) ∧
     (∃ rhead,
       (analize ⟨"s1", "AC".toList⟩ ⟨"s2", "AC".toList⟩).alignment.head? = some rhead ∧
       (0 : Int) = rhead.iA ∧ (0 : Int) = rhead.iB) ∧
     ∀ r ∈ (analize ⟨"s1", "AC".toList⟩ ⟨"s2", "AC".toList⟩).alignment,
       (0 : Int) ≤ r.iA ∧ r.iA ≤ 1 ∧ (0 : Int) ≤ r.iB ∧ r.iB ≤ 1) := by
  have h1 : (tracebackRun "AC".toList "AC".toList).result =
      ⟨1, 1, Result.GOOD_MATCH⟩ :: [⟨0, 0, Result.GOOD_MATCH⟩] := by decide
  have hm1 : (tracebackRun "AC".toList "AC".toList).«matches» = 2 := by decide
  have hs : (analize ⟨"s1", "AC".toList⟩ ⟨"s2", "AC".toList⟩).stats = some
      { permutations := 9
        alignmentLength := 2
        alignmentMatchPercent := 1
        sequence1 := { name := "s1", length := 2, start := 0, «end» := 1 }
        sequence2 := { name := "s2", length := 2, start := 0, «end» := 1 } } := by
    rw [analize_stats_some ⟨"s1", "AC".toList⟩ ⟨"s2", "AC".toList⟩ _ _ h1]
    simp only [hm1]
    norm_num
  exact ⟨hs, C1_start_end ⟨"s1", "AC".toList⟩ ⟨"s2", "AC".toList⟩ _ hs⟩

end Aligner
